import Mathlib

/-!
Shallow embedding of the s390x ABI lowering code of
`cranelift/codegen/src/isa/s390x/abi.rs`: the register classifier tables,
`compute_arg_locs`, `compute_frame_layout`, and `gen_inline_probestack`,
together with proofs about them.

Machine integers (`u32`, `usize`) are modelled as `Nat`; the argument-area
arithmetic stays far below `2^32` on all inputs considered here, so wrapping
is immaterial for those functions.  The `as i32` casts inside
`gen_inline_probestack` are modelled explicitly (`u32AsI32`), because there
the wrap is observable.
-/

namespace S390x

/-- Register class of a real register.  The source also has a `Vector` class,
but on s390x it is unreachable in all code modelled here, so it is omitted. -/
inductive RegKlass where
  | int
  | float
deriving DecidableEq

/-- Physical register: `gpr n` is general-purpose register `n` (`regs::gpr`),
`vr n` is vector/floating register `n` (`regs::vr`). -/
inductive Reg where
  | gpr (n : Nat)
  | vr (n : Nat)
deriving DecidableEq

/-- Class of a register. -/
def regKlass : Reg → RegKlass
  | .gpr _ => .int
  | .vr _ => .float

/-- Calling conventions relevant to the modelled code: the standard
System-V-like convention, the tail-call convention, and `Winch`, which the
backend rejects with an assertion. -/
inductive CallConv where
  | systemV
  | tail
  | winch
deriving DecidableEq

/-- Value types occurring in the modelled signatures (`ir::types`).  The
128-bit vector types all behave identically in the ABI code; three
representatives are included.  `i128` is the representative of types that fit
no register class and are passed by implicit reference. -/
inductive Ty where
  | i8
  | i16
  | i32
  | i64
  | i128
  | f16
  | f32
  | f64
  | i8x16
  | i64x2
  | f32x4
deriving DecidableEq

/-- Bit width of a type (`ty_bits`). -/
def tyBits : Ty → Nat
  | .i8 => 8
  | .i16 => 16
  | .i32 => 32
  | .i64 => 64
  | .i128 => 128
  | .f16 => 16
  | .f32 => 32
  | .f64 => 64
  | .i8x16 => 128
  | .i64x2 => 128
  | .f32x4 => 128

/-- Whether a type is a vector type (`Type::is_vector`). -/
def isVectorTy : Ty → Bool
  | .i8x16 => true
  | .i64x2 => true
  | .f32x4 => true
  | _ => false

/-- Source `in_int_reg`. -/
def in_int_reg : Ty → Bool
  | .i8 => true
  | .i16 => true
  | .i32 => true
  | .i64 => true
  | _ => false

/-- Source `in_flt_reg`. -/
def in_flt_reg : Ty → Bool
  | .f16 => true
  | .f32 => true
  | .f64 => true
  | _ => false

/-- Source `in_vec_reg`: 128-bit vector types. -/
def in_vec_reg (ty : Ty) : Bool :=
  isVectorTy ty && tyBits ty == 128

/-- Source `get_intreg_for_arg`. -/
def get_intreg_for_arg (call_conv : CallConv) (idx : Nat) : Option Reg :=
  match idx with
  | 0 => some (.gpr 2)
  | 1 => some (.gpr 3)
  | 2 => some (.gpr 4)
  | 3 => some (.gpr 5)
  | 4 => some (.gpr 6)
  | 5 => if call_conv = .tail then some (.gpr 7) else none
  | _ => none

/-- Source `get_fltreg_for_arg`. -/
def get_fltreg_for_arg (idx : Nat) : Option Reg :=
  match idx with
  | 0 => some (.vr 0)
  | 1 => some (.vr 2)
  | 2 => some (.vr 4)
  | 3 => some (.vr 6)
  | _ => none

/-- Source `get_vecreg_for_arg`. -/
def get_vecreg_for_arg (idx : Nat) : Option Reg :=
  match idx with
  | 0 => some (.vr 24)
  | 1 => some (.vr 25)
  | 2 => some (.vr 26)
  | 3 => some (.vr 27)
  | 4 => some (.vr 28)
  | 5 => some (.vr 29)
  | 6 => some (.vr 30)
  | 7 => some (.vr 31)
  | _ => none

/-- Source `get_intreg_for_ret`. -/
def get_intreg_for_ret (call_conv : CallConv) (idx : Nat) : Option Reg :=
  match idx with
  | 0 => some (.gpr 2)
  | 1 => some (.gpr 3)
  | 2 => some (.gpr 4)
  | 3 => some (.gpr 5)
  | 4 => if call_conv = .tail then some (.gpr 6) else none
  | 5 => if call_conv = .tail then some (.gpr 7) else none
  | _ => none

/-- Source `get_fltreg_for_ret`. -/
def get_fltreg_for_ret (idx : Nat) : Option Reg :=
  match idx with
  | 0 => some (.vr 0)
  | 1 => some (.vr 2)
  | 2 => some (.vr 4)
  | 3 => some (.vr 6)
  | _ => none

/-- Source `get_vecreg_for_ret`. -/
def get_vecreg_for_ret (idx : Nat) : Option Reg :=
  match idx with
  | 0 => some (.vr 24)
  | 1 => some (.vr 25)
  | 2 => some (.vr 26)
  | 3 => some (.vr 27)
  | 4 => some (.vr 28)
  | 5 => some (.vr 29)
  | 6 => some (.vr 30)
  | 7 => some (.vr 31)
  | _ => none

/-- Source constant `REG_SAVE_AREA_SIZE`. -/
def REG_SAVE_AREA_SIZE : Nat := 160

/-- Requested argument extension (`ir::ArgumentExtension`). -/
inductive ArgumentExtension where
  | none
  | uext
  | sext
deriving DecidableEq

/-- Argument purpose tag (`ir::ArgumentPurpose`), restricted to the variants
the modelled code distinguishes. -/
inductive ArgumentPurpose where
  | normal
  | structArgument (size : Nat)
  | structReturn
deriving DecidableEq

/-- Whether a purpose is the unsupported `StructArgument` variant. -/
def isStructArgument : ArgumentPurpose → Bool
  | .structArgument _ => true
  | _ => false

/-- Parameter descriptor (`ir::AbiParam`). -/
structure AbiParam where
  value_type : Ty
  extension : ArgumentExtension
  purpose : ArgumentPurpose
deriving DecidableEq

/-- Source `AbiParam::new`: given type, no extension, normal purpose. -/
def AbiParam.new (ty : Ty) : AbiParam :=
  { value_type := ty, extension := .none, purpose := .normal }

/-- Modelled from the spec: one slot of an argument location (`ABIArgSlot` of
the target-independent machinst layer, which is not among the source files):
either a physical register or a stack offset, each with the value type and
extension recorded.  Stack offsets are `i64` in the source; they are always
the nonnegative value `next_stack + offset`, so `Nat` is used here. -/
inductive ABIArgSlot where
  | reg (r : Reg) (ty : Ty) (extension : ArgumentExtension)
  | stack (offset : Nat) (ty : Ty) (extension : ArgumentExtension)
deriving DecidableEq

/-- Modelled from the spec: an argument location (`ABIArg` of the machinst
layer): either a list of slots, or an implicit-pointer argument whose backing
buffer lives at `offset`.  The `StructArg` variant is unreachable in the
s390x code and omitted. -/
inductive ABIArg where
  | slots (slots : List ABIArgSlot) (purpose : ArgumentPurpose)
  | implicitPtrArg (pointer : ABIArgSlot) (offset : Nat) (ty : Ty)
      (purpose : ArgumentPurpose)
deriving DecidableEq

/-- Modelled from the spec: `ABIArg::reg` builds a one-slot register
location. -/
def ABIArg.mkReg (r : Reg) (ty : Ty) (ext : ArgumentExtension)
    (purpose : ArgumentPurpose) : ABIArg :=
  .slots [.reg r ty ext] purpose

/-- Whether an `ABIArg` is an implicit-pointer argument. -/
def isImplicitArg : ABIArg → Bool
  | .implicitPtrArg _ _ _ _ => true
  | _ => false

/-- Direction selector of `compute_arg_locs` (`ArgsOrRets`). -/
inductive ArgsOrRets where
  | args
  | rets
deriving DecidableEq

/-- Errors of the modelled fallible functions.  `unsupported` corresponds to
returning `CodegenError::Unsupported`; `fatal` corresponds to a `panic!`,
`assert!` failure or `unwrap` failure in the source. -/
inductive AbiError where
  | unsupported (msg : String)
  | fatal (msg : String)
deriving DecidableEq

/-- Panic message of the `StructArgument` check in `compute_arg_locs`. -/
def structArgMsg : String :=
  "StructArgument parameters are not supported on s390x. Use regular pointer arguments instead."

/-- Assertion message of the `Winch` calling-convention check. -/
def winchMsg : String :=
  "s390x does not support the winch calling convention yet"

/-- Error message of the too-many-return-values check. -/
def tooManyRetsMsg : String :=
  "Too many return values to fit in registers. Use a StructReturn argument instead. (#9510)"

/-- Assertion message of the implicit-argument size check. -/
def implicitAlignMsg : String :=
  "implicit argument size is not properly aligned"

/-- Modelled from the spec: `align_to` of the machinst layer rounds `x` up to
the next multiple of the power-of-two `a`. -/
def alignTo (x a : Nat) : Nat :=
  ((x + a - 1) / a) * a

/-- Natural size in bytes of a type: `ty_bits(ty) / 8`. -/
def sizeOfTy (ty : Ty) : Nat :=
  tyBits ty / 8

/-- Stack slot size of a type: every argument or return value takes a slot of
at least 8 bytes (`std::cmp::max(size, 8)`). -/
def slotSizeOf (ty : Ty) : Nat :=
  max (sizeOfTy ty) 8

/-- Right-justification adjustment inside a stack slot: if the type is of
smaller size than the slot and the argument was not extended, it is passed
right-aligned. -/
def adjustOf (ty : Ty) (ext : ArgumentExtension) : Nat :=
  if sizeOfTy ty < slotSizeOf ty ∧ ext = .none then slotSizeOf ty - sizeOfTy ty else 0

/-- Stack assignment step of `compute_arg_locs` for one spilled value: align
the running offset to `min(slot_size, 8)`, right-justify if applicable, and
advance the running offset by the slot size.  Returns the slot and the new
running offset. -/
def stackAssign (next_stack : Nat) (ty : Ty) (ext : ArgumentExtension) :
    ABIArgSlot × Nat :=
  let slot_size := slotSizeOf ty
  let slot_align := min slot_size 8
  let ns := alignTo next_stack slot_align
  (.stack (ns + adjustOf ty ext) ty ext, ns + slot_size)

/-- Running state of the `compute_arg_locs` loop: the three per-class register
counters, the running stack offset, and the accumulated argument
locations. -/
structure ArgState where
  next_gpr : Nat
  next_fpr : Nat
  next_vr : Nat
  next_stack : Nat
  args : List ABIArg
deriving DecidableEq

/-- Increment the register counter of the selected class (`*next_reg += 1`).
The vector counter shares no constructor with the others in this model, so
`int` bumps `next_gpr` and `float` bumps `next_fpr`; the vector counter is
bumped via `bumpVr`. -/
def bumpCounter (st : ArgState) : RegKlass → ArgState
  | .int => { st with next_gpr := st.next_gpr + 1 }
  | .float => { st with next_fpr := st.next_fpr + 1 }

/-- Increment the vector register counter. -/
def bumpVr (st : ArgState) : ArgState :=
  { st with next_vr := st.next_vr + 1 }

/-- Which running counter a parameter uses, in the order of the source
if-chain. -/
inductive CounterSel where
  | gpr
  | fpr
  | vr
deriving DecidableEq

/-- Bump the selected counter. -/
def bumpSel (st : ArgState) : CounterSel → ArgState
  | .gpr => { st with next_gpr := st.next_gpr + 1 }
  | .fpr => { st with next_fpr := st.next_fpr + 1 }
  | .vr => { st with next_vr := st.next_vr + 1 }

/-- Classification step of the `compute_arg_locs` loop body: selects the
running counter, the candidate register, the implicit-reference type (for
values fitting no register class, in the argument direction), and the
possibly rewritten parameter (implicit references are rewritten to an `i64`
parameter via `AbiParam::new`). -/
def paramSelect (call_conv : CallConv) (args_or_rets : ArgsOrRets)
    (st : ArgState) (param0 : AbiParam) :
    CounterSel × Option Reg × Option Ty × AbiParam :=
  if in_int_reg param0.value_type then
    (.gpr,
      (match args_or_rets with
        | .args => get_intreg_for_arg call_conv st.next_gpr
        | .rets => get_intreg_for_ret call_conv st.next_gpr),
      Option.none, param0)
  else if in_flt_reg param0.value_type then
    (.fpr,
      (match args_or_rets with
        | .args => get_fltreg_for_arg st.next_fpr
        | .rets => get_fltreg_for_ret st.next_fpr),
      Option.none, param0)
  else if in_vec_reg param0.value_type then
    (.vr,
      (match args_or_rets with
        | .args => get_vecreg_for_arg st.next_vr
        | .rets => get_vecreg_for_ret st.next_vr),
      Option.none, param0)
  else if args_or_rets = .rets then
    -- Return values that fit no class are forced to memory.
    (.gpr, Option.none, Option.none, param0)
  else
    -- Arguments are converted to an implicit pointer of type i64.
    (.gpr, get_intreg_for_arg call_conv st.next_gpr,
      some param0.value_type, AbiParam.new .i64)

/-- Final step of the loop body: push either an implicit-pointer location
(after the source `assert!` on the referenced size, modelled as a fatal
error) or a plain one-slot location. -/
def finishParam (st : ArgState) (param : AbiParam) (implicit_ref : Option Ty)
    (slot : ABIArgSlot) : Except AbiError ArgState :=
  match implicit_ref with
  | some ty =>
    if sizeOfTy ty % 8 = 0 then
      .ok { st with
        args := st.args ++ [.implicitPtrArg slot 0 ty param.purpose] }
    else
      .error (.fatal implicitAlignMsg)
  | Option.none =>
    .ok { st with args := st.args ++ [.slots [slot] param.purpose] }

/-- Loop body of `compute_arg_locs` for one parameter. -/
def processParam (call_conv : CallConv) (enable_multi_ret_implicit_sret : Bool)
    (args_or_rets : ArgsOrRets) (st : ArgState) (param0 : AbiParam) :
    Except AbiError ArgState :=
  if isStructArgument param0.purpose then
    .error (.fatal structArgMsg)
  else
    let s := paramSelect call_conv args_or_rets st param0
    let param := s.2.2.2
    match s.2.1 with
    | some r =>
      finishParam (bumpSel st s.1) param s.2.2.1
        (.reg r param.value_type param.extension)
    | Option.none =>
      if args_or_rets = .rets ∧ enable_multi_ret_implicit_sret = false then
        .error (.unsupported tooManyRetsMsg)
      else
        let sa := stackAssign st.next_stack param.value_type param.extension
        finishParam { st with next_stack := sa.2 } param s.2.2.1 sa.1

/-- Process the parameter list left to right, stopping at the first error. -/
def processParams (call_conv : CallConv) (enable_multi_ret_implicit_sret : Bool)
    (args_or_rets : ArgsOrRets) :
    ArgState → List AbiParam → Except AbiError ArgState
  | st, [] => .ok st
  | st, p :: ps =>
    match processParam call_conv enable_multi_ret_implicit_sret args_or_rets st p with
    | .error e => .error e
    | .ok st1 => processParams call_conv enable_multi_ret_implicit_sret args_or_rets st1 ps

/-- Second pass of `compute_arg_locs`: allocate the backing buffers of all
implicit-pointer arguments past the current running offset, recording each
final offset. -/
def assignImplicitOffsets : List ABIArg → Nat → List ABIArg × Nat
  | [], ns => ([], ns)
  | .implicitPtrArg p _ ty purpose :: rest, ns =>
    let r := assignImplicitOffsets rest (ns + sizeOfTy ty)
    (.implicitPtrArg p ns ty purpose :: r.1, r.2)
  | a :: rest, ns =>
    let r := assignImplicitOffsets rest ns
    (a :: r.1, r.2)

/-- Return-area-pointer argument: `get_intreg_for_arg(call_conv, 0).unwrap()`
is `gpr 2` for every convention (`get_intreg_for_arg_zero` below), with type
`i64`, no extension, normal purpose. -/
def retAreaPtrArg : ABIArg :=
  ABIArg.mkReg (.gpr 2) .i64 .none .normal

/-- Initial state of the `compute_arg_locs` loop: all counters zero, except
that the return-area pointer, when requested, consumes the first integer
argument register (`next_gpr += 1`). -/
def initialState (add_ret_area_ptr : Bool) : ArgState :=
  { next_gpr := if add_ret_area_ptr then 1 else 0, next_fpr := 0,
    next_vr := 0, next_stack := 0, args := [] }

/-- Body of `compute_arg_locs` up to, but not including, the final tail-call
register-save-area adjustment: the Winch assertion, the optional
return-area-pointer register, the per-parameter loop, the final word
alignment, and the implicit-pointer buffer pass.  Returns the argument
locations, the stack area size, and the index of the synthesized
return-area-pointer argument if any. -/
def computeArgLocsInner (call_conv : CallConv)
    (enable_multi_ret_implicit_sret : Bool) (params : List AbiParam)
    (args_or_rets : ArgsOrRets) (add_ret_area_ptr : Bool) :
    Except AbiError (List ABIArg × Nat × Option Nat) :=
  if call_conv = .winch then
    .error (.fatal winchMsg)
  else
    let st0 : ArgState := initialState add_ret_area_ptr
    match processParams call_conv enable_multi_ret_implicit_sret args_or_rets st0 params with
    | .error e => .error e
    | .ok st =>
      let next_stack := alignTo st.next_stack 8
      let argsExtra : List ABIArg × Option Nat :=
        if add_ret_area_ptr then
          (st.args ++ [retAreaPtrArg], some st.args.length)
        else
          (st.args, Option.none)
      let post := assignImplicitOffsets argsExtra.1 next_stack
      .ok (post.1, post.2, argsExtra.2)

/-- Source `compute_arg_locs`: the body above followed by the tail-call
correction, which counts the register save area into the argument area size
whenever the latter is nonzero. -/
def computeArgLocs (call_conv : CallConv) (enable_multi_ret_implicit_sret : Bool)
    (params : List AbiParam) (args_or_rets : ArgsOrRets)
    (add_ret_area_ptr : Bool) :
    Except AbiError (List ABIArg × Nat × Option Nat) :=
  match computeArgLocsInner call_conv enable_multi_ret_implicit_sret params
      args_or_rets add_ret_area_ptr with
  | .error e => .error e
  | .ok (args, next_stack, extra_arg) =>
    .ok (args,
      (if call_conv = .tail ∧ args_or_rets = .args ∧ next_stack ≠ 0 then
        next_stack + REG_SAVE_AREA_SIZE
      else
        next_stack),
      extra_arg)

/-- Frame layout record (`FrameLayout` of the machinst layer, whose fields
are read directly by the modelled source). -/
structure FrameLayout where
  word_bytes : Nat
  incoming_args_size : Nat
  tail_args_size : Nat
  setup_area_size : Nat
  clobber_size : Nat
  fixed_frame_storage_size : Nat
  stackslots_size : Nat
  outgoing_args_size : Nat
  clobbered_callee_saves : List Reg
deriving DecidableEq

/-- Source `is_reg_saved_in_prologue`.  Under the tail-call convention the
callee-saved GPRs are r8 to r15; otherwise r6 to r15; floating registers f8
to f15 are callee-saved under every convention. -/
def is_reg_saved_in_prologue (call_conv : CallConv) (r : Reg) : Bool :=
  match call_conv, r with
  | .tail, .gpr n => decide (8 ≤ n ∧ n ≤ 15)
  | _, .gpr n => decide (6 ≤ n ∧ n ≤ 15)
  | _, .vr n => decide (8 ≤ n ∧ n ≤ 15)

/-- Link register of the convention, `gpr(14)`. -/
def linkReg : Reg := .gpr 14

/-- Class index of a register in the `PReg` order. -/
def regKey : Reg → Nat
  | .gpr _ => 0
  | .vr _ => 1

/-- Number of a register. -/
def regNum : Reg → Nat
  | .gpr n => n
  | .vr n => n

/-- Sort order on registers used by the deterministic clobber sort: integer
registers before floating registers, each class by ascending number.  This is
the derived order of `regalloc2::PReg` (class index first, then hardware
encoding). -/
def regLe (a b : Reg) : Prop :=
  regKey a < regKey b ∨ (regKey a = regKey b ∧ regNum a ≤ regNum b)

instance : DecidableRel regLe := fun a b => by
  unfold regLe
  infer_instance

instance : IsTotal Reg regLe := by
  constructor
  intro a b
  unfold regLe
  omega

instance : IsTrans Reg regLe := by
  constructor
  intro a b c
  unfold regLe
  omega

instance : IsAntisymm Reg regLe := by
  constructor
  intro a b h1 h2
  cases a <;> cases b <;>
    simp only [regLe, regKey, regNum] at h1 h2 <;>
    first
      | (simp only [Reg.gpr.injEq]; omega)
      | (simp only [Reg.vr.injEq]; omega)
      | omega

/-- Assertion message of the pinned-register check. -/
def pinnedRegMsg : String :=
  "Pinned register not supported on s390x"

/-- Clobber-size loop of `compute_frame_layout`: 8 bytes per floating-class
register, nothing for integer-class registers. -/
def clobberSizeLoop : List Reg → Nat
  | [] => 0
  | r :: rest =>
    (match regKlass r with
      | .int => 0
      | .float => 8) + clobberSizeLoop rest

/-- Outgoing-argument-area bump of `compute_frame_layout`: if the front end
asks to preserve frame pointers, the outgoing area is at least the register
save area, even in leaf functions. -/
def adjOutgoing (preserve_frame_pointers : Bool) (outgoing_args_size : Nat) : Nat :=
  if preserve_frame_pointers = true ∧ outgoing_args_size < REG_SAVE_AREA_SIZE then
    REG_SAVE_AREA_SIZE
  else
    outgoing_args_size

/-- Clobbered-callee-save list of `compute_frame_layout`: filter the clobbers
down to the callee-saves of the convention, add the link register for
non-leaf functions (non-zero outgoing area) when not already present, and
sort into ascending order for deterministic output.  The source sorts with
`sort_unstable`; any sort producing an ascending reordering yields the same
list, so `List.insertionSort` is used here. -/
def clobberRegs (call_conv : CallConv) (regs : List Reg) (outgoing : Nat) :
    List Reg :=
  let regs1 := regs.filter (fun r => is_reg_saved_in_prologue call_conv r)
  let regs2 :=
    if 0 < outgoing ∧ ¬ (linkReg ∈ regs1) then regs1 ++ [linkReg] else regs1
  List.insertionSort regLe regs2

/-- Core of `compute_frame_layout` after the pinned-register assertion:
compute the adjusted outgoing area and the sorted clobbered-callee-save
list, then the clobber size (8 bytes per floating register, plus the
tail-call argument size under the tail convention), and assemble the
layout.  The `tail_args_size` field is reset to the incoming-argument size
after the tail-call accounting. -/
def frameLayoutCore (call_conv : CallConv) (preserve_frame_pointers : Bool)
    (regs : List Reg) (incoming_args_size tail_args_size stackslots_size
    fixed_frame_storage_size outgoing_args_size : Nat) : FrameLayout :=
  { word_bytes := 8,
    incoming_args_size := incoming_args_size,
    tail_args_size := incoming_args_size,
    setup_area_size := 0,
    clobber_size :=
      (if call_conv = .tail then
        clobberSizeLoop (clobberRegs call_conv regs
          (adjOutgoing preserve_frame_pointers outgoing_args_size)) + tail_args_size
      else
        clobberSizeLoop (clobberRegs call_conv regs
          (adjOutgoing preserve_frame_pointers outgoing_args_size))),
    fixed_frame_storage_size := fixed_frame_storage_size,
    stackslots_size := stackslots_size,
    outgoing_args_size := adjOutgoing preserve_frame_pointers outgoing_args_size,
    clobbered_callee_saves := clobberRegs call_conv regs
      (adjOutgoing preserve_frame_pointers outgoing_args_size) }

/-- Source `compute_frame_layout`: the pinned-register assertion (modelled as
a fatal error) followed by the pure layout computation. -/
def computeFrameLayout (call_conv : CallConv)
    (enable_pinned_reg preserve_frame_pointers : Bool) (regs : List Reg)
    (incoming_args_size tail_args_size stackslots_size
    fixed_frame_storage_size outgoing_args_size : Nat) :
    Except AbiError FrameLayout :=
  if enable_pinned_reg then
    .error (.fatal pinnedRegMsg)
  else
    .ok (frameLayoutCore call_conv preserve_frame_pointers regs
      incoming_args_size tail_args_size stackslots_size
      fixed_frame_storage_size outgoing_args_size)

/-- Instructions emitted by `gen_inline_probestack`, reduced to the fields
that determine their stack-pointer effect.  `aluRSImm16`/`aluRSImm32` are the
two forms of `gen_sp_reg_adjust` (64-bit add of a signed immediate to the
stack pointer); `storeImm8` probes the current stack location;
`mov32SImm16`/`mov32Imm` load the probe count into the spilltmp register;
`stackProbeLoop` is the counted probe loop pseudo-instruction, which carries
the value held by its probe-count register operand. -/
inductive Inst where
  | aluRSImm16 (imm : Int)
  | aluRSImm32 (imm : Int)
  | storeImm8
  | mov32SImm16 (imm : Int)
  | mov32Imm (imm : Nat)
  | stackProbeLoop (probe_count : Nat) (guard_size : Int)
deriving DecidableEq

/-- Value of a `u32` reinterpreted as an `i32` (the `as i32` cast). -/
def u32AsI32 (x : Nat) : Int :=
  if x % 2 ^ 32 < 2 ^ 31 then ((x % 2 ^ 32 : Nat) : Int)
  else ((x % 2 ^ 32 : Nat) : Int) - 2 ^ 32

/-- Wrapping `i32` negation (`i32::MIN` negates to itself). -/
def i32Neg (x : Int) : Int :=
  if x = -(2 ^ 31) then x else -x

/-- Source `gen_sp_reg_adjust`: emit nothing for a zero adjustment, a
16-bit-immediate add when the amount fits in `i16`, and a 32-bit-immediate
add otherwise. -/
def gen_sp_reg_adjust (imm : Int) : List Inst :=
  if imm = 0 then []
  else if -(2 ^ 15) ≤ imm ∧ imm < 2 ^ 15 then [.aluRSImm16 imm]
  else [.aluRSImm32 imm]

/-- Source constant `PROBE_MAX_UNROLL`. -/
def PROBE_MAX_UNROLL : Nat := 2

/-- Assertion message of `u32` division by zero. -/
def divByZeroMsg : String :=
  "attempt to divide by zero"

/-- Assertion message of the guard-size `i16` conversion in the probe
loop. -/
def guardI16Msg : String :=
  "guard size does not fit in i16"

/-- Source `gen_inline_probestack`: compute the probe count, emit either an
unrolled sequence of store-and-decrement pairs (when the count is at most
`PROBE_MAX_UNROLL`) or a counted probe loop, then restore the stack pointer.
The `unwrap` on the `i16` conversion of the guard size and the division by a
zero guard size are modelled as fatal errors. -/
def genInlineProbestack (frame_size guard_size : Nat) :
    Except AbiError (List Inst) :=
  if guard_size = 0 then
    .error (.fatal divByZeroMsg)
  else
    let probe_count := frame_size / guard_size
    let body : Except AbiError (List Inst) :=
      if probe_count = 0 then
        .ok []
      else if probe_count ≤ PROBE_MAX_UNROLL then
        .ok (List.flatten (List.replicate probe_count
          (gen_sp_reg_adjust (i32Neg (u32AsI32 guard_size)) ++ [.storeImm8])))
      else
        let movInst : Inst :=
          if probe_count ≤ 2 ^ 15 - 1 then .mov32SImm16 (probe_count : Int)
          else .mov32Imm probe_count
        if guard_size ≤ 2 ^ 15 - 1 then
          .ok [movInst, .stackProbeLoop probe_count (guard_size : Int)]
        else
          .error (.fatal guardI16Msg)
    match body with
    | .error e => .error e
    | .ok insts =>
      .ok (insts ++ gen_sp_reg_adjust (u32AsI32 (probe_count * guard_size)))

/-- Stack-pointer effect of one instruction, in bytes (positive increments
the stack pointer).  The effect of `stackProbeLoop` is modelled from the
spec: the counted loop decrements the stack pointer by the guard size once
per probe, `probe_count` times in total (its emission lives outside the
modelled source files). -/
def spDelta : Inst → Int
  | .aluRSImm16 imm => imm
  | .aluRSImm32 imm => imm
  | .storeImm8 => 0
  | .mov32SImm16 _ => 0
  | .mov32Imm _ => 0
  | .stackProbeLoop probe_count guard_size => -(probe_count * guard_size)

/-- Net stack-pointer effect of an instruction sequence. -/
def netSpDelta (insts : List Inst) : Int :=
  (insts.map spDelta).sum

/-- Observable data of a stack slot: its offset, type and extension. -/
def slotEntry : ABIArgSlot → Option (Nat × Ty × ArgumentExtension)
  | .stack offset ty ext => some (offset, ty, ext)
  | .reg _ _ _ => none

/-- Stack slots of one argument location, in order.  The pointer slot of an
implicit-pointer argument counts; its backing buffer is not a slot. -/
def argStackEntries : ABIArg → List (Nat × Ty × ArgumentExtension)
  | .slots slots _ => slots.filterMap slotEntry
  | .implicitPtrArg pointer _ _ _ => [pointer].filterMap slotEntry

/-- Stack slots of an argument-location list, in parameter order. -/
def stackEntries : List ABIArg → List (Nat × Ty × ArgumentExtension)
  | [] => []
  | a :: rest => argStackEntries a ++ stackEntries rest

/-- Well-formedness of one recorded stack slot relative to a running stack
offset `ns`: the recorded offset is an 8-byte-aligned slot base plus the
right-justification adjustment, and the whole slot lies below `ns`. -/
def entryOk (ns : Nat) (en : Nat × Ty × ArgumentExtension) : Prop :=
  ∃ base, base % 8 = 0 ∧ en.1 = base + adjustOf en.2.1 en.2.2 ∧
    base + slotSizeOf en.2.1 ≤ ns

/-- Size alignment of an implicit-pointer argument, established by the
source assertion when it is pushed. -/
def implicitOk : ABIArg → Prop
  | .implicitPtrArg _ _ ty _ => sizeOfTy ty % 8 = 0
  | _ => True

/-- Invariant of the `compute_arg_locs` loop relating the running stack
offset to the accumulated argument locations. -/
def invNS (ns : Nat) (args : List ABIArg) : Prop :=
  ns % 8 = 0 ∧
  (stackEntries args).Pairwise (fun a b => a.1 < b.1) ∧
  (∀ en ∈ stackEntries args, entryOk ns en) ∧
  (∀ a ∈ args, implicitOk a) ∧
  (stackEntries args = [] → ns = 0)

/-- Loop invariant of `compute_arg_locs`, on the running state. -/
def stInv (st : ArgState) : Prop :=
  invNS st.next_stack st.args

/-- Total bytes of implicit-pointer backing buffers in an argument-location
list. -/
def countImplicitBytes : List ABIArg → Nat
  | [] => 0
  | .implicitPtrArg _ _ ty _ :: rest => sizeOfTy ty + countImplicitBytes rest
  | _ :: rest => countImplicitBytes rest

/-- An `i64` parameter with no extension and normal purpose. -/
def p64 : AbiParam := { value_type := .i64, extension := .none, purpose := .normal }

/-- An `i8` parameter with no extension and normal purpose. -/
def p8u : AbiParam := { value_type := .i8, extension := .none, purpose := .normal }

/-- The signature `(i64, i64, i64, i64, i64, i64)`. -/
def sixI64 : List AbiParam := [p64, p64, p64, p64, p64, p64]

/-- The signature `(i64, i64, i64, i64, i64, i8)` with the `i8`
unextended. -/
def fiveI64i8 : List AbiParam := [p64, p64, p64, p64, p64, p8u]

/-- Argument locations `compute_arg_locs` produces for `sixI64` under the
standard convention. -/
def sixI64Locs : List ABIArg :=
  [.slots [.reg (.gpr 2) .i64 .none] .normal,
   .slots [.reg (.gpr 3) .i64 .none] .normal,
   .slots [.reg (.gpr 4) .i64 .none] .normal,
   .slots [.reg (.gpr 5) .i64 .none] .normal,
   .slots [.reg (.gpr 6) .i64 .none] .normal,
   .slots [.stack 0 .i64 .none] .normal]

/-- Argument locations `compute_arg_locs` produces for `fiveI64i8` under the
standard convention: the unextended `i8` is spilled right-justified at
offset 7. -/
def fiveI64i8Locs : List ABIArg :=
  [.slots [.reg (.gpr 2) .i64 .none] .normal,
   .slots [.reg (.gpr 3) .i64 .none] .normal,
   .slots [.reg (.gpr 4) .i64 .none] .normal,
   .slots [.reg (.gpr 5) .i64 .none] .normal,
   .slots [.reg (.gpr 6) .i64 .none] .normal,
   .slots [.stack 7 .i8 .none] .normal]

/-- Instruction sequence of `gen_inline_probestack` for a frame of `2^31`
bytes with a guard size of `2^30` bytes: two unrolled probes and a final
restoring adjustment whose `u32`-to-`i32` cast wraps. -/
def probeInstsWrap : List Inst :=
  [.aluRSImm32 (-1073741824), .storeImm8,
   .aluRSImm32 (-1073741824), .storeImm8,
   .aluRSImm32 (-2147483648)]

/-- Instruction sequence of `gen_inline_probestack` for a frame of 8192
bytes with a guard size of 4096 bytes. -/
def probeInsts8192 : List Inst :=
  [.aluRSImm16 (-4096), .storeImm8,
   .aluRSImm16 (-4096), .storeImm8,
   .aluRSImm16 8192]

/-! Basic facts about sizes, slots, and alignment. -/

theorem get_intreg_for_arg_zero (call_conv : CallConv) :
    get_intreg_for_arg call_conv 0 = some (.gpr 2) := rfl

theorem sizeOfTy_pos (t : Ty) : 1 ≤ sizeOfTy t := by
  cases t <;> decide

theorem sizeOfTy_le_slot (t : Ty) : sizeOfTy t ≤ slotSizeOf t :=
  Nat.le_max_left _ _

theorem slotSizeOf_ge8 (t : Ty) : 8 ≤ slotSizeOf t :=
  Nat.le_max_right _ _

theorem slotSizeOf_mod8 (t : Ty) : slotSizeOf t % 8 = 0 := by
  cases t <;> decide

theorem min_slotSizeOf (t : Ty) : min (slotSizeOf t) 8 = 8 :=
  Nat.min_eq_right (slotSizeOf_ge8 t)

theorem adjustOf_lt_slot (t : Ty) (e : ArgumentExtension) :
    adjustOf t e < slotSizeOf t := by
  unfold adjustOf
  have h1 := sizeOfTy_pos t
  have h2 := sizeOfTy_le_slot t
  have h3 := slotSizeOf_ge8 t
  split <;> omega

theorem alignTo_le (x : Nat) : x ≤ alignTo x 8 := by
  unfold alignTo
  omega

theorem alignTo_mod (x : Nat) : alignTo x 8 % 8 = 0 := by
  unfold alignTo
  omega

theorem stackAssign_eq (ns : Nat) (t : Ty) (e : ArgumentExtension) :
    stackAssign ns t e =
      (.stack (alignTo ns 8 + adjustOf t e) t e, alignTo ns 8 + slotSizeOf t) := by
  show (ABIArgSlot.stack (alignTo ns (min (slotSizeOf t) 8) + adjustOf t e) t e,
    alignTo ns (min (slotSizeOf t) 8) + slotSizeOf t) = _
  rw [min_slotSizeOf]

theorem not_reg_size_aligned (t : Ty) (h1 : ¬ in_int_reg t = true)
    (h2 : ¬ in_flt_reg t = true) (h3 : ¬ in_vec_reg t = true) :
    sizeOfTy t % 8 = 0 := by
  cases t <;> revert h1 h2 h3 <;> decide

theorem adjustOf_int (t : Ty) (e : ArgumentExtension)
    (h : in_int_reg t = true) :
    adjustOf t e =
      if e = ArgumentExtension.none ∧ sizeOfTy t < 8 then 8 - sizeOfTy t
      else 0 := by
  cases t <;> cases e <;> revert h <;> decide

theorem min_size_dvd (t : Ty) (e : ArgumentExtension) :
    (min (sizeOfTy t) 8) ∣ 8 ∧ (min (sizeOfTy t) 8) ∣ adjustOf t e := by
  cases t <;> cases e <;> decide

/-! Facts about stack entries and the loop invariant. -/

theorem stackEntries_append (l1 l2 : List ABIArg) :
    stackEntries (l1 ++ l2) = stackEntries l1 ++ stackEntries l2 := by
  induction l1 with
  | nil => rfl
  | cons a rest ih =>
    show argStackEntries a ++ stackEntries (rest ++ l2) =
      (argStackEntries a ++ stackEntries rest) ++ stackEntries l2
    rw [ih, List.append_assoc]

theorem entryOk_mono {ns1 ns2 : Nat} {en : Nat × Ty × ArgumentExtension}
    (h : entryOk ns1 en) (hle : ns1 ≤ ns2) : entryOk ns2 en := by
  obtain ⟨base, hb1, hb2, hb3⟩ := h
  exact ⟨base, hb1, hb2, hb3.trans hle⟩

theorem invNS_nil : invNS 0 [] := by
  refine ⟨rfl, ?_, ?_, ?_, fun _ => rfl⟩
  · exact List.Pairwise.nil
  · intro en hen
    cases hen
  · intro a ha
    cases ha

theorem invNS_append_nostack {ns : Nat} {args : List ABIArg} {a : ABIArg}
    (h : invNS ns args) (himp : implicitOk a) (hA : argStackEntries a = []) :
    invNS ns (args ++ [a]) := by
  obtain ⟨h1, h2, h3, h4, h5⟩ := h
  have hse : stackEntries (args ++ [a]) = stackEntries args := by
    rw [stackEntries_append]
    simp [stackEntries, hA]
  refine ⟨h1, ?_, ?_, ?_, ?_⟩
  · rw [hse]; exact h2
  · rw [hse]; exact h3
  · intro b hb
    rcases List.mem_append.mp hb with hb | hb
    · exact h4 b hb
    · rcases List.mem_singleton.mp hb with rfl
      exact himp
  · rw [hse]; exact h5

theorem invNS_append_stack {ns : Nat} {args : List ABIArg} {a : ABIArg}
    {t : Ty} {e : ArgumentExtension}
    (h : invNS ns args) (himp : implicitOk a)
    (hA : argStackEntries a = [(alignTo ns 8 + adjustOf t e, t, e)]) :
    invNS (alignTo ns 8 + slotSizeOf t) (args ++ [a]) := by
  obtain ⟨h1, h2, h3, h4, h5⟩ := h
  have hbase_mod := alignTo_mod ns
  have hbase_ge := alignTo_le ns
  have hslot_mod := slotSizeOf_mod8 t
  have hse : stackEntries (args ++ [a]) =
      stackEntries args ++ [(alignTo ns 8 + adjustOf t e, t, e)] := by
    rw [stackEntries_append]
    simp [stackEntries, hA]
  have hlt_all : ∀ en ∈ stackEntries args, en.1 < alignTo ns 8 + adjustOf t e := by
    intro en hen
    obtain ⟨base, hb1, hb2, hb3⟩ := h3 en hen
    have hadj := adjustOf_lt_slot en.2.1 en.2.2
    omega
  refine ⟨by omega, ?_, ?_, ?_, ?_⟩
  · rw [hse, List.pairwise_append]
    refine ⟨h2, List.pairwise_singleton _ _, ?_⟩
    intro x hx y hy
    rcases List.mem_singleton.mp hy with rfl
    exact hlt_all x hx
  · rw [hse]
    intro en hen
    rcases List.mem_append.mp hen with hen | hen
    · exact entryOk_mono (h3 en hen) (by omega)
    · rcases List.mem_singleton.mp hen with rfl
      exact ⟨alignTo ns 8, hbase_mod, rfl, le_refl _⟩
  · intro b hb
    rcases List.mem_append.mp hb with hb | hb
    · exact h4 b hb
    · rcases List.mem_singleton.mp hb with rfl
      exact himp
  · rw [hse]
    intro hcontra
    exact absurd hcontra (by simp)

/-! Preservation of the loop invariant by the `compute_arg_locs` loop. -/

theorem finishParam_some (st : ArgState) (param : AbiParam) (ty : Ty)
    (slot : ABIArgSlot) :
    finishParam st param (some ty) slot =
      if sizeOfTy ty % 8 = 0 then
        .ok { st with args := st.args ++ [.implicitPtrArg slot 0 ty param.purpose] }
      else
        .error (.fatal implicitAlignMsg) := rfl

theorem finishParam_noref (st : ArgState) (param : AbiParam)
    (slot : ABIArgSlot) :
    finishParam st param Option.none slot =
      .ok { st with args := st.args ++ [.slots [slot] param.purpose] } := rfl

theorem finishParam_ok {st : ArgState} {param : AbiParam} {iref : Option Ty}
    {slot : ABIArgSlot} {st1 : ArgState}
    (h : finishParam st param iref slot = .ok st1) :
    ∃ a, st1 = { st with args := st.args ++ [a] } ∧
      argStackEntries a = List.filterMap slotEntry [slot] ∧ implicitOk a := by
  cases iref with
  | some ty =>
    rw [finishParam_some] at h
    split at h
    · rename_i hc
      injection h with h
      exact ⟨_, h.symm, rfl, hc⟩
    · exact Except.noConfusion h
  | none =>
    rw [finishParam_noref] at h
    injection h with h
    exact ⟨_, h.symm, rfl, trivial⟩

theorem paramSelect_implicit {cc : CallConv} {aor : ArgsOrRets} {st : ArgState}
    {p : AbiParam} {sel : CounterSel} {cand : Option Reg} {ty : Ty}
    {param : AbiParam}
    (h : paramSelect cc aor st p = (sel, cand, some ty, param)) :
    sizeOfTy ty % 8 = 0 := by
  unfold paramSelect at h
  split at h
  · simp only [Prod.mk.injEq] at h
    exact absurd h.2.2.1 (by simp)
  · split at h
    · simp only [Prod.mk.injEq] at h
      exact absurd h.2.2.1 (by simp)
    · split at h
      · simp only [Prod.mk.injEq] at h
        exact absurd h.2.2.1 (by simp)
      · split at h
        · simp only [Prod.mk.injEq] at h
          exact absurd h.2.2.1 (by simp)
        · simp only [Prod.mk.injEq] at h
          rw [← Option.some.inj h.2.2.1]
          apply not_reg_size_aligned <;> assumption

theorem bumpSel_next_stack (st : ArgState) (sel : CounterSel) :
    (bumpSel st sel).next_stack = st.next_stack := by
  cases sel <;> rfl

theorem bumpSel_args (st : ArgState) (sel : CounterSel) :
    (bumpSel st sel).args = st.args := by
  cases sel <;> rfl

theorem processParam_inv {cc : CallConv} {ms : Bool} {aor : ArgsOrRets}
    {st st1 : ArgState} {p : AbiParam}
    (hInv : stInv st) (h : processParam cc ms aor st p = .ok st1) :
    stInv st1 := by
  unfold processParam at h
  split at h
  · exact Except.noConfusion h
  · rcases hps : paramSelect cc aor st p with ⟨sel, cand, iref, param⟩
    simp only [hps] at h
    cases cand with
    | some r =>
      dsimp only at h
      obtain ⟨a, heq, hA, himp⟩ := finishParam_ok h
      subst heq
      have hA2 : argStackEntries a = [] := hA
      show invNS (bumpSel st sel).next_stack ((bumpSel st sel).args ++ [a])
      rw [bumpSel_next_stack, bumpSel_args]
      exact invNS_append_nostack hInv himp hA2
    | none =>
      dsimp only at h
      split at h
      · exact Except.noConfusion h
      · rw [stackAssign_eq] at h
        obtain ⟨a, heq, hA, himp⟩ := finishParam_ok h
        subst heq
        have hA2 : argStackEntries a =
            [(alignTo st.next_stack 8 + adjustOf param.value_type param.extension,
              param.value_type, param.extension)] := hA
        show invNS (alignTo st.next_stack 8 + slotSizeOf param.value_type)
          (st.args ++ [a])
        exact invNS_append_stack hInv himp hA2

theorem processParams_inv {cc : CallConv} {ms : Bool} {aor : ArgsOrRets} :
    ∀ {ps : List AbiParam} {st st1 : ArgState},
    stInv st → processParams cc ms aor st ps = .ok st1 → stInv st1 := by
  intro ps
  induction ps with
  | nil =>
    intro st st1 hInv h
    injection h with h
    rwa [← h]
  | cons q qs ih =>
    intro st st1 hInv h
    unfold processParams at h
    rcases hq : processParam cc ms aor st q with e | st2
    · rw [hq] at h
      exact Except.noConfusion h
    · rw [hq] at h
      exact ih (processParam_inv hInv hq) h

theorem processParam_args_ok (cc : CallConv) (ms : Bool) (st : ArgState)
    (p : AbiParam) (hp : isStructArgument p.purpose = false) :
    ∃ st1, processParam cc ms .args st p = .ok st1 := by
  unfold processParam
  rw [hp]
  simp only [Bool.false_eq_true, if_false]
  rcases hps : paramSelect cc .args st p with ⟨sel, cand, iref, param⟩
  have hiref : ∀ ty, iref = some ty → sizeOfTy ty % 8 = 0 := by
    intro ty hty
    exact paramSelect_implicit (hty ▸ hps)
  simp only [hps]
  cases cand with
  | some r =>
    dsimp only
    cases iref with
    | some ty =>
      rw [finishParam_some, if_pos (hiref ty rfl)]
      exact ⟨_, rfl⟩
    | none =>
      rw [finishParam_noref]
      exact ⟨_, rfl⟩
  | none =>
    dsimp only
    rw [if_neg (by simp)]
    cases iref with
    | some ty =>
      rw [finishParam_some, if_pos (hiref ty rfl)]
      exact ⟨_, rfl⟩
    | none =>
      rw [finishParam_noref]
      exact ⟨_, rfl⟩

theorem processParams_structArg {cc : CallConv} {ms : Bool} :
    ∀ {ps : List AbiParam} {st : ArgState},
    (∃ p ∈ ps, isStructArgument p.purpose = true) →
    processParams cc ms .args st ps = .error (.fatal structArgMsg) := by
  intro ps
  induction ps with
  | nil =>
    intro st h
    obtain ⟨p, hp, -⟩ := h
    cases hp
  | cons q qs ih =>
    intro st h
    by_cases hq : isStructArgument q.purpose = true
    · unfold processParams processParam
      rw [if_pos hq]
    · have hq2 : isStructArgument q.purpose = false := Bool.eq_false_iff.mpr hq
      obtain ⟨st1, hok⟩ := processParam_args_ok cc ms st q hq2
      obtain ⟨p, hp, hsp⟩ := h
      have hpqs : p ∈ qs := by
        rcases List.mem_cons.mp hp with rfl | hmem
        · exact absurd hsp hq
        · exact hmem
      unfold processParams
      rw [hok]
      exact ih ⟨p, hpqs, hsp⟩

/-! Facts about the implicit-pointer buffer pass. -/

theorem assignImplicitOffsets_snd : ∀ (args : List ABIArg) (ns : Nat),
    (assignImplicitOffsets args ns).2 = ns + countImplicitBytes args := by
  intro args
  induction args with
  | nil => intro ns; rfl
  | cons a rest ih =>
    intro ns
    cases a with
    | slots s p =>
      show (assignImplicitOffsets rest ns).2 = ns + countImplicitBytes rest
      exact ih ns
    | implicitPtrArg ptr off ty p =>
      show (assignImplicitOffsets rest (ns + sizeOfTy ty)).2 =
        ns + (sizeOfTy ty + countImplicitBytes rest)
      rw [ih]
      omega

theorem assignImplicitOffsets_entries : ∀ (args : List ABIArg) (ns : Nat),
    stackEntries (assignImplicitOffsets args ns).1 = stackEntries args := by
  intro args
  induction args with
  | nil => intro ns; rfl
  | cons a rest ih =>
    intro ns
    cases a with
    | slots s p =>
      show argStackEntries (.slots s p) ++ stackEntries (assignImplicitOffsets rest ns).1 =
        argStackEntries (.slots s p) ++ stackEntries rest
      rw [ih]
    | implicitPtrArg ptr off ty p =>
      show argStackEntries (.implicitPtrArg ptr ns ty p) ++
          stackEntries (assignImplicitOffsets rest (ns + sizeOfTy ty)).1 =
        argStackEntries (.implicitPtrArg ptr off ty p) ++ stackEntries rest
      rw [ih]
      rfl

theorem assignImplicitOffsets_count : ∀ (args : List ABIArg) (ns : Nat),
    countImplicitBytes (assignImplicitOffsets args ns).1 = countImplicitBytes args := by
  intro args
  induction args with
  | nil => intro ns; rfl
  | cons a rest ih =>
    intro ns
    cases a with
    | slots s p =>
      show countImplicitBytes (assignImplicitOffsets rest ns).1 = countImplicitBytes rest
      exact ih ns
    | implicitPtrArg ptr off ty p =>
      show sizeOfTy ty + countImplicitBytes (assignImplicitOffsets rest (ns + sizeOfTy ty)).1 =
        sizeOfTy ty + countImplicitBytes rest
      rw [ih]

theorem countImplicitBytes_mod8 : ∀ (args : List ABIArg),
    (∀ a ∈ args, implicitOk a) → countImplicitBytes args % 8 = 0 := by
  intro args
  induction args with
  | nil => intro _; rfl
  | cons a rest ih =>
    intro h
    have hrest := ih (fun b hb => h b (List.mem_cons_of_mem a hb))
    cases a with
    | slots s p =>
      show countImplicitBytes rest % 8 = 0
      exact hrest
    | implicitPtrArg ptr off ty p =>
      have hty : sizeOfTy ty % 8 = 0 := h _ (List.mem_cons_self _ _)
      show (sizeOfTy ty + countImplicitBytes rest) % 8 = 0
      omega

theorem countImplicitBytes_zero_iff : ∀ (args : List ABIArg),
    countImplicitBytes args = 0 ↔ ∀ a ∈ args, isImplicitArg a = false := by
  intro args
  induction args with
  | nil =>
    constructor
    · intro _ a ha
      cases ha
    · intro _
      rfl
  | cons a rest ih =>
    cases a with
    | slots s p =>
      constructor
      · intro h b hb
        rcases List.mem_cons.mp hb with rfl | hb
        · rfl
        · exact (ih.mp h) b hb
      · intro h
        exact ih.mpr (fun b hb => h b (List.mem_cons_of_mem _ hb))
    | implicitPtrArg ptr off ty p =>
      constructor
      · intro h
        exfalso
        have := sizeOfTy_pos ty
        have hc : sizeOfTy ty + countImplicitBytes rest = 0 := h
        omega
      · intro h
        exact absurd (h _ (List.mem_cons_self _ _)) (by simp [isImplicitArg])

/-- Finalization of the loop invariant across the closing steps of
`compute_arg_locs`: word-align the running offset, then allocate the
implicit-pointer buffers. -/
theorem invNS_finalize {ns0 : Nat} {args1 : List ABIArg}
    (hinv : invNS ns0 args1) :
    (stackEntries (assignImplicitOffsets args1 (alignTo ns0 8)).1).Pairwise
      (fun a b => a.1 < b.1) ∧
    (∀ en ∈ stackEntries (assignImplicitOffsets args1 (alignTo ns0 8)).1,
      entryOk (assignImplicitOffsets args1 (alignTo ns0 8)).2 en) ∧
    (assignImplicitOffsets args1 (alignTo ns0 8)).2 % 8 = 0 ∧
    ((assignImplicitOffsets args1 (alignTo ns0 8)).2 = 0 ↔
      (stackEntries (assignImplicitOffsets args1 (alignTo ns0 8)).1 = [] ∧
        ∀ a ∈ (assignImplicitOffsets args1 (alignTo ns0 8)).1,
          isImplicitArg a = false)) := by
  obtain ⟨h1, h2, h3, h4, h5⟩ := hinv
  have hns1_mod : alignTo ns0 8 % 8 = 0 := alignTo_mod ns0
  have hns1_ge : ns0 ≤ alignTo ns0 8 := alignTo_le ns0
  have hse := assignImplicitOffsets_entries args1 (alignTo ns0 8)
  have hsnd := assignImplicitOffsets_snd args1 (alignTo ns0 8)
  have hcnt := assignImplicitOffsets_count args1 (alignTo ns0 8)
  have hcmod := countImplicitBytes_mod8 args1 h4
  refine ⟨?_, ?_, ?_, ?_⟩
  · rw [hse]
    exact h2
  · rw [hse, hsnd]
    intro en hen
    exact entryOk_mono (h3 en hen) (by omega)
  · rw [hsnd]
    omega
  · rw [hsnd, hse]
    constructor
    · intro h0
      have hc0 : countImplicitBytes args1 = 0 := by omega
      refine ⟨?_, ?_⟩
      · rcases hE : stackEntries args1 with _ | ⟨en, rest⟩
        · rfl
        · exfalso
          have hmem : en ∈ stackEntries args1 := by
            rw [hE]
            exact List.mem_cons_self _ _
          obtain ⟨base, -, -, hb3⟩ := h3 en hmem
          have := slotSizeOf_ge8 en.2.1
          omega
      · refine (countImplicitBytes_zero_iff _).mp ?_
        rw [hcnt]
        exact hc0
    · rintro ⟨hE, hF⟩
      have hc0 : countImplicitBytes args1 = 0 := by
        rw [← hcnt]
        exact (countImplicitBytes_zero_iff _).mpr hF
      have hn0 : ns0 = 0 := h5 hE
      rw [hn0, hc0]
      decide

/-- Master well-formedness theorem for the stack area computed by
`compute_arg_locs` before the tail-call adjustment: the recorded stack-slot
offsets are strictly increasing, every slot decomposes into an aligned base
plus the right-justification adjustment and fits below the total, the total
is word-aligned, and the total is zero exactly when no argument touches the
stack. -/
theorem computeArgLocsInner_ok {cc : CallConv} {ms : Bool}
    {params : List AbiParam} {aor : ArgsOrRets} {addRet : Bool}
    {args : List ABIArg} {total : Nat} {extra : Option Nat}
    (h : computeArgLocsInner cc ms params aor addRet = .ok (args, total, extra)) :
    (stackEntries args).Pairwise (fun a b => a.1 < b.1) ∧
    (∀ en ∈ stackEntries args, entryOk total en) ∧
    total % 8 = 0 ∧
    (total = 0 ↔ (stackEntries args = [] ∧ ∀ a ∈ args, isImplicitArg a = false)) := by
  unfold computeArgLocsInner at h
  split at h
  · exact Except.noConfusion h
  · dsimp only at h
    rcases hpp : processParams cc ms aor (initialState addRet) params with e | st
    · rw [hpp] at h
      exact Except.noConfusion h
    · rw [hpp] at h
      dsimp only at h
      have hInv0 : stInv (initialState addRet) := invNS_nil
      have hInv : invNS st.next_stack st.args := processParams_inv hInv0 hpp
      split at h
      · have hinv1 : invNS st.next_stack (st.args ++ [retAreaPtrArg]) :=
          invNS_append_nostack hInv trivial rfl
        have hfin := invNS_finalize hinv1
        injection h with h
        rw [Prod.mk.injEq, Prod.mk.injEq] at h
        obtain ⟨hA, hT, hE⟩ := h
        subst hA
        subst hT
        exact hfin
      · have hfin := invNS_finalize hInv
        injection h with h
        rw [Prod.mk.injEq, Prod.mk.injEq] at h
        obtain ⟨hA, hT, hE⟩ := h
        subst hA
        subst hT
        exact hfin

/-- With a convention other than Winch, a parameter list containing a
`StructArgument` makes `compute_arg_locs` fail fatally with the
`StructArgument` panic message (in the argument direction). -/
theorem computeArgLocs_structArg {cc : CallConv} {ms : Bool}
    {params : List AbiParam} {addRet : Bool}
    (hcc : cc ≠ .winch)
    (hsa : ∃ p ∈ params, isStructArgument p.purpose = true) :
    computeArgLocs cc ms params .args addRet = .error (.fatal structArgMsg) := by
  unfold computeArgLocs computeArgLocsInner
  rw [if_neg hcc]
  dsimp only
  rw [processParams_structArg hsa]

/-! Facts about the frame layout computation. -/

theorem clobberSizeLoop_countP (l : List Reg) :
    clobberSizeLoop l = 8 * l.countP (fun r => regKlass r == RegKlass.float) := by
  induction l with
  | nil => rfl
  | cons r rest ih =>
    simp only [clobberSizeLoop, List.countP_cons, ih]
    cases hr : regKlass r
    · simp [hr]
    · simp [hr]
      ring

theorem clobberRegs_perm (cc : CallConv) {regs1 regs2 : List Reg} (o : Nat)
    (hperm : regs1.Perm regs2) :
    clobberRegs cc regs1 o = clobberRegs cc regs2 o := by
  unfold clobberRegs
  have h1 : (regs1.filter (fun r => is_reg_saved_in_prologue cc r)).Perm
      (regs2.filter (fun r => is_reg_saved_in_prologue cc r)) :=
    hperm.filter _
  have hmem : linkReg ∈ regs1.filter (fun r => is_reg_saved_in_prologue cc r) ↔
      linkReg ∈ regs2.filter (fun r => is_reg_saved_in_prologue cc r) :=
    h1.mem_iff
  have h2 : (if 0 < o ∧ ¬ linkReg ∈ regs1.filter (fun r => is_reg_saved_in_prologue cc r)
        then regs1.filter (fun r => is_reg_saved_in_prologue cc r) ++ [linkReg]
        else regs1.filter (fun r => is_reg_saved_in_prologue cc r)).Perm
      (if 0 < o ∧ ¬ linkReg ∈ regs2.filter (fun r => is_reg_saved_in_prologue cc r)
        then regs2.filter (fun r => is_reg_saved_in_prologue cc r) ++ [linkReg]
        else regs2.filter (fun r => is_reg_saved_in_prologue cc r)) := by
    by_cases hc : 0 < o ∧ ¬ linkReg ∈ regs1.filter (fun r => is_reg_saved_in_prologue cc r)
    · rw [if_pos hc, if_pos ⟨hc.1, fun hm => hc.2 (hmem.mpr hm)⟩]
      exact h1.append_right _
    · rw [if_neg hc, if_neg (fun hcc => hc ⟨hcc.1, fun hm => hcc.2 (hmem.mp hm)⟩)]
      exact h1
  exact List.eq_of_perm_of_sorted
    ((List.perm_insertionSort regLe _).trans
      (h2.trans (List.perm_insertionSort regLe _).symm))
    (List.sorted_insertionSort regLe _)
    (List.sorted_insertionSort regLe _)

theorem frameLayoutCore_perm (cc : CallConv) (pfp : Bool)
    {regs1 regs2 : List Reg} (ia ta ss ffs oa : Nat)
    (hperm : regs1.Perm regs2) :
    frameLayoutCore cc pfp regs1 ia ta ss ffs oa =
      frameLayoutCore cc pfp regs2 ia ta ss ffs oa := by
  unfold frameLayoutCore
  rw [clobberRegs_perm cc (adjOutgoing pfp oa) hperm]

/-- Decomposition of a successful `compute_arg_locs` run into its body and
the final tail-call adjustment. -/
theorem computeArgLocs_ok_inner {cc : CallConv} {ms : Bool}
    {params : List AbiParam} {aor : ArgsOrRets} {addRet : Bool}
    {args : List ABIArg} {total : Nat} {extra : Option Nat}
    (h : computeArgLocs cc ms params aor addRet = .ok (args, total, extra)) :
    ∃ s, computeArgLocsInner cc ms params aor addRet = .ok (args, s, extra) ∧
      total = (if cc = .tail ∧ aor = .args ∧ s ≠ 0 then s + REG_SAVE_AREA_SIZE
        else s) := by
  unfold computeArgLocs at h
  rcases hi : computeArgLocsInner cc ms params aor addRet with e | x
  · rw [hi] at h
    exact Except.noConfusion h
  · rcases x with ⟨a, s, ex⟩
    rw [hi] at h
    dsimp only at h
    injection h with h
    rw [Prod.mk.injEq, Prod.mk.injEq] at h
    obtain ⟨rfl, hT, rfl⟩ := h
    exact ⟨s, rfl, hT.symm⟩

/-! Facts about the stack-pointer effect of the probe sequences. -/

theorem u32AsI32_small {x : Nat} (hx : x < 2 ^ 31) : u32AsI32 x = (x : Int) := by
  unfold u32AsI32
  rw [show x % 2 ^ 32 = x from Nat.mod_eq_of_lt (by omega), if_pos hx]

theorem netSpDelta_append (l1 l2 : List Inst) :
    netSpDelta (l1 ++ l2) = netSpDelta l1 + netSpDelta l2 := by
  simp [netSpDelta]

theorem netSpDelta_adjust (imm : Int) :
    netSpDelta (gen_sp_reg_adjust imm) = imm := by
  unfold gen_sp_reg_adjust
  split
  · rename_i h0
    simp [netSpDelta, h0]
  · split <;> simp [netSpDelta, spDelta]

theorem netSpDelta_flatten_replicate (n : Nat) (l : List Inst) :
    netSpDelta (List.flatten (List.replicate n l)) = n * netSpDelta l := by
  induction n with
  | zero => simp [netSpDelta]
  | succ k ih =>
    rw [List.replicate_succ, List.flatten_cons, netSpDelta_append, ih]
    push_cast
    ring

/-! Claim theorems. -/

/-- C1 (counterexample): for the signature `(i64, i64, i64, i64, i64, i64)`
under the standard convention, `compute_arg_locs` puts the fifth parameter
into integer register 6 (not on the stack), the sixth on the stack at
offset 0, and returns a total stack size of 8 — not 16 as the claim
states. -/
theorem C1_counterexample :
    computeArgLocs .systemV true sixI64 .args false =
      .ok (sixI64Locs, 8, Option.none) ∧ (8 : Nat) ≠ 16 :=
  ⟨rfl, by decide⟩

/-- C1 (amended): for the signature `(i64, i64, i64, i64, i64, i64)` under
the standard convention, `compute_arg_locs` assigns the first five
parameters to integer argument registers 2 through 6, assigns the sixth to a
stack slot at offset 0, and returns a total stack size of 8. -/
theorem C1_amended :
    computeArgLocs .systemV true sixI64 .args false =
      .ok (sixI64Locs, 8, Option.none) := rfl

/-- C2 (counterexample): there are no two distinct slot indices at which
`get_intreg_for_arg` returns a register under the tail convention but none
under the standard convention; index 5 is the only such index. -/
theorem C2_counterexample :
    ¬ ∃ i j : Nat, i ≠ j ∧
      (get_intreg_for_arg .tail i).isSome = true ∧
      get_intreg_for_arg .systemV i = Option.none ∧
      (get_intreg_for_arg .tail j).isSome = true ∧
      get_intreg_for_arg .systemV j = Option.none := by
  rintro ⟨i, j, hij, hi1, hi2, hj1, hj2⟩
  have key : ∀ k : Nat, (get_intreg_for_arg .tail k).isSome = true →
      get_intreg_for_arg .systemV k = Option.none → k = 5 := by
    intro k h1 h2
    match k with
    | 0 | 1 | 2 | 3 | 4 => exact absurd h2 (by decide)
    | 5 => rfl
    | (n + 6) => exact Bool.noConfusion (show false = true from h1)
  exact hij ((key i hi1 hi2).trans (key j hj1 hj2).symm)

/-- C2 (amended): the tail-call convention exposes exactly one additional
integer argument register relative to the standard convention
(`get_intreg_for_arg` differs only at index 5, where tail gives `gpr 7` and
standard gives none); the return-register table `get_intreg_for_ret` exposes
two additional registers (indices 4 and 5). -/
theorem C2_amended :
    get_intreg_for_arg .tail 5 = some (.gpr 7) ∧
    get_intreg_for_arg .systemV 5 = Option.none ∧
    (∀ i : Nat, i ≠ 5 →
      get_intreg_for_arg .tail i = get_intreg_for_arg .systemV i) ∧
    get_intreg_for_ret .tail 4 = some (.gpr 6) ∧
    get_intreg_for_ret .systemV 4 = Option.none ∧
    get_intreg_for_ret .tail 5 = some (.gpr 7) ∧
    get_intreg_for_ret .systemV 5 = Option.none := by
  refine ⟨rfl, rfl, ?_, rfl, rfl, rfl, rfl⟩
  intro i hi
  match i with
  | 0 | 1 | 2 | 3 | 4 => rfl
  | 5 => exact absurd rfl hi
  | (n + 6) => rfl

/-- C2 (witness): the agreement part of the amended claim at index 4. -/
theorem C2_amended_witness :
    get_intreg_for_arg .tail 4 = get_intreg_for_arg .systemV 4 :=
  C2_amended.2.2.1 4 (by decide)

/-- A one-parameter list whose parameter has `StructArgument` purpose. -/
def structArgParams : List AbiParam :=
  [{ value_type := .i64, extension := .none, purpose := .structArgument 16 }]

/-- C3 (counterexample): on a parameter list containing a `StructArgument`,
`compute_arg_locs` panics (modelled as a fatal error) instead of returning a
recoverable unsupported-feature error. -/
theorem C3_counterexample :
    computeArgLocs .systemV true structArgParams .args false =
      .error (.fatal structArgMsg) ∧
    ∀ msg, (AbiError.fatal structArgMsg) ≠ AbiError.unsupported msg := by
  constructor
  · rfl
  · intro msg h
    exact AbiError.noConfusion h

/-- C3 (amended): for every parameter list containing a parameter of
`StructArgument` purpose, `compute_arg_locs` (in the argument direction,
under any convention the backend accepts) panics with the
StructArgument-unsupported message rather than returning a recoverable
error. -/
theorem C3_amended (cc : CallConv) (ms : Bool) (params : List AbiParam)
    (addRet : Bool) (hcc : cc ≠ .winch)
    (hsa : ∃ p ∈ params, isStructArgument p.purpose = true) :
    computeArgLocs cc ms params .args addRet = .error (.fatal structArgMsg) :=
  computeArgLocs_structArg hcc hsa

/-- C3 (witness): the amended claim at a concrete input. -/
theorem C3_amended_witness :
    computeArgLocs .systemV true structArgParams .args false =
      .error (.fatal structArgMsg) :=
  C3_amended .systemV true structArgParams false (by decide)
    ⟨_, List.mem_cons_self _ _, rfl⟩

/-- C4: whenever `compute_arg_locs` spills an integer-class value to the
stack, its recorded offset is an 8-byte-aligned slot base plus
`slot_size - size` (here `8 - size`) when the value is sub-word and requests
no extension, and the slot base itself otherwise. -/
theorem C4_right_justified (cc : CallConv) (ms : Bool) (params : List AbiParam)
    (aor : ArgsOrRets) (addRet : Bool) (args : List ABIArg) (total : Nat)
    (extra : Option Nat)
    (h : computeArgLocs cc ms params aor addRet = .ok (args, total, extra)) :
    ∀ en ∈ stackEntries args, in_int_reg en.2.1 = true →
      ∃ base, base % 8 = 0 ∧
        en.1 = base +
          (if en.2.2 = ArgumentExtension.none ∧ sizeOfTy en.2.1 < 8 then
            8 - sizeOfTy en.2.1
          else 0) := by
  obtain ⟨s, hi, -⟩ := computeArgLocs_ok_inner h
  obtain ⟨-, h2, -, -⟩ := computeArgLocsInner_ok hi
  intro en hen hint
  obtain ⟨base, hb1, hb2, -⟩ := h2 en hen
  refine ⟨base, hb1, ?_⟩
  rw [hb2, adjustOf_int en.2.1 en.2.2 hint]

/-- C4 (witness): the unextended `i8` of `fiveI64i8` is spilled at offset
7 = base 0 + (8 - 1). -/
theorem C4_witness :
    ∃ base, base % 8 = 0 ∧
      7 = base +
        (if ArgumentExtension.none = ArgumentExtension.none ∧ sizeOfTy Ty.i8 < 8
          then 8 - sizeOfTy Ty.i8
        else 0) :=
  C4_right_justified .systemV true fiveI64i8 .args false fiveI64i8Locs 8
    Option.none rfl (7, Ty.i8, ArgumentExtension.none) (by decide) rfl

/-- C5 (counterexample): under the tail convention with a tail-call argument
size of 16, a function clobbering exactly the two integer callee-saved
registers r8 and r9 and no floating registers gets `clobber_size = 16`, not
0: the tail-call argument size is also folded into `clobber_size`. -/
theorem C5_counterexample :
    computeFrameLayout .tail false false [Reg.gpr 8, Reg.gpr 9] 0 16 0 0 0 =
      .ok { word_bytes := 8, incoming_args_size := 0, tail_args_size := 0,
            setup_area_size := 0, clobber_size := 16,
            fixed_frame_storage_size := 0, stackslots_size := 0,
            outgoing_args_size := 0,
            clobbered_callee_saves := [Reg.gpr 8, Reg.gpr 9] } ∧
    (16 : Nat) ≠ 0 :=
  ⟨rfl, by decide⟩

/-- C5 (amended): `clobber_size` equals 8 bytes per floating-class clobbered
callee-save plus, under the tail convention only, the tail-call argument
size; integer-class clobbered registers never contribute.  In particular a
non-tail function clobbering only integer callee-saves has
`clobber_size = 0`. -/
theorem C5_amended (cc : CallConv) (pinned pfp : Bool) (regs : List Reg)
    (ia ta ss ffs oa : Nat) (layout : FrameLayout)
    (h : computeFrameLayout cc pinned pfp regs ia ta ss ffs oa = .ok layout) :
    layout.clobber_size =
      8 * layout.clobbered_callee_saves.countP
        (fun r => regKlass r == RegKlass.float) +
      (if cc = CallConv.tail then ta else 0) := by
  unfold computeFrameLayout at h
  split at h
  · exact Except.noConfusion h
  · injection h with h
    subst h
    unfold frameLayoutCore
    dsimp only
    rw [clobberSizeLoop_countP]
    by_cases hc : cc = CallConv.tail
    · rw [if_pos hc, if_pos hc]
    · rw [if_neg hc, if_neg hc]
      omega

/-- C5 (witness): a standard-convention function clobbering exactly r8 and
r9 has `clobber_size = 0`. -/
theorem C5_witness :
    ∃ layout,
      computeFrameLayout .systemV false false [Reg.gpr 8, Reg.gpr 9] 0 0 0 0 0 =
        .ok layout ∧ layout.clobber_size = 0 := by
  refine ⟨_, rfl, ?_⟩
  rw [C5_amended .systemV false false [Reg.gpr 8, Reg.gpr 9] 0 0 0 0 0 _ rfl]
  decide

/-- C6: under the tail convention in the argument direction, the final total
equals the body total when the latter is zero (no addend) and the body total
plus the 160-byte register save area exactly once otherwise; and the body
total is zero precisely when no argument occupies stack space (no stack
slots and no implicit-pointer buffers). -/
theorem C6_tail_addend (ms : Bool) (params : List AbiParam) (addRet : Bool)
    (args : List ABIArg) (s : Nat) (extra : Option Nat)
    (h : computeArgLocsInner .tail ms params .args addRet = .ok (args, s, extra)) :
    computeArgLocs .tail ms params .args addRet =
      .ok (args, (if s = 0 then s else s + REG_SAVE_AREA_SIZE), extra) ∧
    (s = 0 ↔ (stackEntries args = [] ∧ ∀ a ∈ args, isImplicitArg a = false)) := by
  constructor
  · unfold computeArgLocs
    rw [h]
    dsimp only
    by_cases hs : s = 0
    · rw [if_neg (by simp [hs]), if_pos hs]
    · rw [if_pos ⟨rfl, rfl, hs⟩, if_neg hs]
  · exact (computeArgLocsInner_ok h).2.2.2

/-- C6 (witness): a single register argument under the tail convention
yields a body total of 0 and a final total of 0 (no addend). -/
theorem C6_witness :
    computeArgLocs .tail true [p64] .args false =
      .ok ([ABIArg.slots [.reg (.gpr 2) .i64 .none] .normal], 0, Option.none) :=
  (C6_tail_addend true [p64] false
    [ABIArg.slots [.reg (.gpr 2) .i64 .none] .normal] 0 Option.none rfl).1

/-- C7: frame-layout computation is invariant under permutation of the
clobbered-register input; all fields, including the sorted
clobbered-callee-saves list, coincide. -/
theorem C7_determinism (cc : CallConv) (pinned pfp : Bool)
    (regs1 regs2 : List Reg) (ia ta ss ffs oa : Nat)
    (hperm : regs1.Perm regs2) :
    computeFrameLayout cc pinned pfp regs1 ia ta ss ffs oa =
      computeFrameLayout cc pinned pfp regs2 ia ta ss ffs oa := by
  unfold computeFrameLayout
  split
  · rfl
  · rw [frameLayoutCore_perm cc pfp ia ta ss ffs oa hperm]

/-- C7 (witness): the two orders of r8, r9 give identical layouts. -/
theorem C7_witness :
    computeFrameLayout .systemV false false [Reg.gpr 9, Reg.gpr 8] 0 0 0 0 0 =
      computeFrameLayout .systemV false false [Reg.gpr 8, Reg.gpr 9] 0 0 0 0 0 :=
  C7_determinism .systemV false false [Reg.gpr 9, Reg.gpr 8]
    [Reg.gpr 8, Reg.gpr 9] 0 0 0 0 0 (by decide)

/-- C8 (counterexample): the unextended `i8` of `fiveI64i8` is recorded at
stack offset 7, which is not aligned to `min(slot_size, word_size) = 8`;
recorded offsets include the right-justification adjustment. -/
theorem C8_counterexample :
    computeArgLocs .systemV true fiveI64i8 .args false =
      .ok (fiveI64i8Locs, 8, Option.none) ∧
    stackEntries fiveI64i8Locs = [(7, Ty.i8, ArgumentExtension.none)] ∧
    7 % min (slotSizeOf Ty.i8) 8 ≠ 0 :=
  ⟨rfl, rfl, by decide⟩

/-- C8 (amended): for every signature, the recorded stack offsets are
monotonically non-decreasing in parameter order (indeed strictly
increasing); every recorded offset is aligned to `min(size, word_size)` —
the natural size, not the slot size, because sub-word unextended values are
right-justified within their slot; and every slot base (the recorded offset
minus the right-justification adjustment) is aligned to
`min(slot_size, word_size)`. -/
theorem C8_amended (cc : CallConv) (ms : Bool) (params : List AbiParam)
    (aor : ArgsOrRets) (addRet : Bool) (args : List ABIArg) (total : Nat)
    (extra : Option Nat)
    (h : computeArgLocs cc ms params aor addRet = .ok (args, total, extra)) :
    (stackEntries args).Pairwise (fun a b => a.1 ≤ b.1) ∧
    (stackEntries args).Pairwise (fun a b => a.1 < b.1) ∧
    (∀ en ∈ stackEntries args, en.1 % min (sizeOfTy en.2.1) 8 = 0) ∧
    (∀ en ∈ stackEntries args, ∃ base,
      base % min (slotSizeOf en.2.1) 8 = 0 ∧
      en.1 = base + adjustOf en.2.1 en.2.2) := by
  obtain ⟨s, hi, -⟩ := computeArgLocs_ok_inner h
  obtain ⟨h1, h2, -, -⟩ := computeArgLocsInner_ok hi
  refine ⟨h1.imp (fun hab => Nat.le_of_lt hab), h1, ?_, ?_⟩
  · intro en hen
    obtain ⟨base, hb1, hb2, -⟩ := h2 en hen
    obtain ⟨hd8, hdadj⟩ := min_size_dvd en.2.1 en.2.2
    have hdb : min (sizeOfTy en.2.1) 8 ∣ base :=
      hd8.trans (Nat.dvd_of_mod_eq_zero hb1)
    rw [hb2]
    exact Nat.mod_eq_zero_of_dvd (Nat.dvd_add hdb hdadj)
  · intro en hen
    obtain ⟨base, hb1, hb2, -⟩ := h2 en hen
    refine ⟨base, ?_, hb2⟩
    rw [min_slotSizeOf]
    exact hb1

/-- C8 (witness): the amended claim at the `sixI64` signature. -/
theorem C8_witness :
    (stackEntries sixI64Locs).Pairwise (fun a b => a.1 ≤ b.1) ∧
    (stackEntries sixI64Locs).Pairwise (fun a b => a.1 < b.1) ∧
    (∀ en ∈ stackEntries sixI64Locs, en.1 % min (sizeOfTy en.2.1) 8 = 0) ∧
    (∀ en ∈ stackEntries sixI64Locs, ∃ base,
      base % min (slotSizeOf en.2.1) 8 = 0 ∧
      en.1 = base + adjustOf en.2.1 en.2.2) :=
  C8_amended .systemV true sixI64 .args false sixI64Locs 8 Option.none rfl

/-- C10: whenever `compute_arg_locs` returns successfully, the total stack
size is a multiple of 8, including after the implicit-pointer buffers and
the tail-call register-save-area addend. -/
theorem C10_word_aligned (cc : CallConv) (ms : Bool) (params : List AbiParam)
    (aor : ArgsOrRets) (addRet : Bool) (args : List ABIArg) (total : Nat)
    (extra : Option Nat)
    (h : computeArgLocs cc ms params aor addRet = .ok (args, total, extra)) :
    total % 8 = 0 := by
  obtain ⟨s, hi, hT⟩ := computeArgLocs_ok_inner h
  obtain ⟨-, -, h3, -⟩ := computeArgLocsInner_ok hi
  have hR : REG_SAVE_AREA_SIZE = 160 := rfl
  rw [hT]
  split
  · omega
  · exact h3

/-- C10 (witness): the claim at a one-parameter signature with total 0. -/
theorem C10_witness : (0 : Nat) % 8 = 0 :=
  C10_word_aligned .tail true [p64] .args false
    [ABIArg.slots [.reg (.gpr 2) .i64 .none] .normal] 0 Option.none rfl

/-- C9 (counterexample): with a frame of `2^31` bytes and a guard size of
`2^30` bytes, the final restoring adjustment immediate `2^31` wraps to
`-2^31` in the `u32`-to-`i32` cast, and the emitted sequence has a net
stack-pointer effect of `-2^32` rather than 0. -/
theorem C9_counterexample :
    genInlineProbestack (2 ^ 31) (2 ^ 30) = .ok probeInstsWrap ∧
    netSpDelta probeInstsWrap = -(2 ^ 32) ∧ (-(2 ^ 32) : Int) ≠ 0 :=
  ⟨rfl, rfl, by decide⟩

/-- C9 (amended): for every frame size below `2^31` and non-zero guard size,
when `gen_inline_probestack` succeeds, the emitted instruction sequence has
net stack-pointer effect zero under both the unrolled and the counted-loop
strategy. -/
theorem C9_amended (frame_size guard_size : Nat) (insts : List Inst)
    (hframe : frame_size < 2 ^ 31)
    (h : genInlineProbestack frame_size guard_size = .ok insts) :
    netSpDelta insts = 0 := by
  unfold genInlineProbestack at h
  split at h
  · exact Except.noConfusion h
  · rename_i hg
    dsimp only at h
    have hple : frame_size / guard_size * guard_size ≤ frame_size :=
      Nat.div_mul_le_self _ _
    have hpg31 : frame_size / guard_size * guard_size < 2 ^ 31 :=
      lt_of_le_of_lt hple hframe
    split at h
    · exact Except.noConfusion h
    · rename_i insts0 heq
      injection h with h
      subst h
      rw [netSpDelta_append, netSpDelta_adjust, u32AsI32_small hpg31]
      by_cases hp0 : frame_size / guard_size = 0
      · rw [if_pos hp0] at heq
        injection heq with heq
        subst heq
        simp [netSpDelta, hp0]
      · rw [if_neg hp0] at heq
        have hgle : guard_size ≤ frame_size :=
          (Nat.one_le_div_iff (Nat.pos_of_ne_zero hg)).mp
            (Nat.pos_of_ne_zero hp0)
        have hg31 : guard_size < 2 ^ 31 := lt_of_le_of_lt hgle hframe
        by_cases hp2 : frame_size / guard_size ≤ PROBE_MAX_UNROLL
        · rw [if_pos hp2] at heq
          injection heq with heq
          subst heq
          have hitem : netSpDelta
              (gen_sp_reg_adjust (i32Neg (u32AsI32 guard_size)) ++ [.storeImm8]) =
              -(guard_size : Int) := by
            rw [netSpDelta_append, netSpDelta_adjust, u32AsI32_small hg31]
            have hne : (guard_size : Int) ≠ -(2 ^ 31) := by omega
            unfold i32Neg
            rw [if_neg hne]
            simp [netSpDelta, spDelta]
          rw [netSpDelta_flatten_replicate, hitem]
          push_cast
          ring
        · rw [if_neg hp2] at heq
          split at heq
          · injection heq with heq
            subst heq
            simp only [netSpDelta, List.map_cons, List.map_nil, List.sum_cons,
              List.sum_nil]
            split <;> (dsimp only [spDelta]; push_cast; ring)
          · exact Except.noConfusion heq

/-- C9 (witness): the amended claim at frame size 8192 with guard size
4096. -/
theorem C9_witness : netSpDelta probeInsts8192 = 0 :=
  C9_amended 8192 4096 probeInsts8192 (by decide) rfl

end S390x
